import Mathlib

/-!
Shallow embedding of the berthoven harmony-annotation loader.

Source files embedded here:
- src/harmonykit/types.py      (HarmonyEvent, brace, clean_label)
- src/harmonykit/adapter.py    (piece-id validation, path resolution, sorting,
                                dcml filtering, event construction)
- src/harmonykit/utils/exceptions.py (the domain-error family)
- src/schema/roadmap.py        (Row schema validation over a sampled prefix)

Python strings are modelled as Lean String (a list of characters); Python int
as Int; Python Fraction as Rat (exact rationals, automatically reduced);
pandas DataFrames as a column list plus a row list of string cells, since the
loader reads every cell as text (dtype=str, keep_default_na=False).
-/

namespace HarmonyKit

/-- Decide whether a character is an ASCII decimal digit, as used by the
CPython numeric-literal grammars for int, float and Fraction. -/
def isDigitChar (c : Char) : Bool := '0' ≤ c && c ≤ '9'

/-- Whitespace recognised by Python when stripping numeric strings and by
str.strip. We model the ASCII whitespace characters; the further Unicode
whitespace code points accepted by Python do not occur in the data model. -/
def isPySpace (c : Char) : Bool :=
  c = ' ' || c = '\t' || c = '\n' || c = '\r' || c = '\x0b' || c = '\x0c'

/-- Numeric value of a list of ASCII digits, most significant first. -/
def digitsToNat (ds : List Char) : Nat :=
  ds.foldl (fun a c => 10 * a + (c.toNat - 48)) 0

/-- Split a character list into its longest digit run and the remainder. -/
def takeDigits : List Char → List Char × List Char
  | [] => ([], [])
  | c :: cs =>
    if isDigitChar c then
      let p := takeDigits cs
      (c :: p.1, p.2)
    else ([], c :: cs)

/-- Remove leading and trailing Python whitespace from a character list. -/
def stripWs (l : List Char) : List Char :=
  ((l.dropWhile isPySpace).reverse.dropWhile isPySpace).reverse

/-- Model of Python str.strip() as used by HarmonyEvent.__post_init__. -/
def pyStrip (s : String) : String := ⟨stripWs s.data⟩

/-- Model of Python int(str): optional surrounding whitespace, an optional
sign, and a nonempty digit run. Returns none where CPython raises ValueError.
Underscore digit separators and non-ASCII decimal digits are not modelled. -/
def pyInt (s : String) : Option Int :=
  let l0 := stripWs s.data
  let sl : Int × List Char :=
    match l0 with
    | '+' :: r => (1, r)
    | '-' :: r => (-1, r)
    | _ => (1, l0)
  let p := takeDigits sl.2
  if p.1.isEmpty then none
  else if !p.2.isEmpty then none
  else some (sl.1 * digitsToNat p.1)

/-- Exceptions that the embedded code can raise. The first two are Python
builtins; the remaining three are the HarmonyKitError subclasses declared in
src/harmonykit/utils/exceptions.py. That module declares no MalformedRow
class. -/
inductive PyExc where
  | valueError
  | zeroDivisionError
  | invalidPieceIdError
  | pieceNotFoundError
  | multipleMatchesError (names : List String)
deriving DecidableEq, Repr

/-- Decide whether an exception belongs to the HarmonyKitError domain-error
family of src/harmonykit/utils/exceptions.py. -/
def PyExc.isHarmonyKitError : PyExc → Bool
  | .invalidPieceIdError | .pieceNotFoundError | .multipleMatchesError _ => true
  | _ => false

/-- Consume an optional leading sign, returning the signum and the rest. -/
def takeSign : List Char → Int × List Char
  | '+' :: r => (1, r)
  | '-' :: r => (-1, r)
  | l => (1, l)

/-- Model of fractions.Fraction(str) from the CPython standard library, as
invoked by HarmonyEvent.__post_init__. The accepted grammar follows
_RATIONAL_FORMAT: optional surrounding whitespace, an optional sign, then
either digits with an optional slash-denominator, or a decimal form with an
optional exponent part introduced by e or E. A zero denominator raises
ZeroDivisionError; any string outside the grammar raises ValueError.
Underscore digit separators are not modelled. -/
def parseFraction (s : String) : Except PyExc Rat :=
  let l0 := stripWs s.data
  let sl := takeSign l0
  let sgn := sl.1
  let l1 := sl.2
  let lookDigit : Bool :=
    match l1 with
    | c :: _ => isDigitChar c
    | [] => false
  let lookDot : Bool :=
    match l1 with
    | '.' :: c :: _ => isDigitChar c
    | _ => false
  if !(lookDigit || lookDot) then .error .valueError
  else
    let pn := takeDigits l1
    let num := pn.1
    match pn.2 with
    | '/' :: r2 =>
      let pd := takeDigits r2
      if pd.1.isEmpty then .error .valueError
      else if !pd.2.isEmpty then .error .valueError
      else if digitsToNat pd.1 = 0 then .error .zeroDivisionError
      else .ok (Rat.divInt (sgn * digitsToNat num) (digitsToNat pd.1))
    | r1 =>
      let pdec : List Char × List Char :=
        match r1 with
        | '.' :: r => takeDigits r
        | _ => ([], r1)
      let dec := pdec.1
      let k := dec.length
      let mant : Int := sgn * (digitsToNat num * 10 ^ k + digitsToNat dec)
      match pdec.2 with
      | [] => .ok (Rat.divInt mant (10 ^ k))
      | 'e' :: r3 =>
        let se := takeSign r3
        let pe := takeDigits se.2
        if pe.1.isEmpty then .error .valueError
        else if !pe.2.isEmpty then .error .valueError
        else
          let e : Int := se.1 * digitsToNat pe.1
          if 0 ≤ e then .ok (Rat.divInt (mant * 10 ^ e.toNat) (10 ^ k))
          else .ok (Rat.divInt mant (10 ^ k * 10 ^ (-e).toNat))
      | 'E' :: r3 =>
        let se := takeSign r3
        let pe := takeDigits se.2
        if pe.1.isEmpty then .error .valueError
        else if !pe.2.isEmpty then .error .valueError
        else
          let e : Int := se.1 * digitsToNat pe.1
          if 0 ≤ e then .ok (Rat.divInt (mant * 10 ^ e.toNat) (10 ^ k))
          else .ok (Rat.divInt mant (10 ^ k * 10 ^ (-e).toNat))
      | _ => .error .valueError

/-- Brace classification enum from src/harmonykit/types.py. -/
inductive Brace where
  | NONE
  | OPEN
  | CLOSE
  | BOUNDARY
deriving DecidableEq, Repr

/-- Decide whether pat occurs as a contiguous run inside l, the model of the
Python substring test (pat in s). -/
def containsSub (pat : List Char) : List Char → Bool
  | [] => pat.isEmpty
  | c :: cs => pat.isPrefixOf (c :: cs) || containsSub pat cs

/-- HarmonyEvent.brace from src/harmonykit/types.py: checked in order,
a "}{" run gives BOUNDARY, else "{" gives OPEN, else "}" gives CLOSE, else
NONE. The lower() call applied to the "}{" literal in the source is the
identity, so it is omitted. -/
def brace (label : String) : Brace :=
  if containsSub ['\x7d', '\x7b'] label.data then .BOUNDARY
  else if containsSub ['\x7b'] label.data then .OPEN
  else if containsSub ['\x7d'] label.data then .CLOSE
  else .NONE

/-- Model of Python str.replace(pat, ""): remove the leftmost occurrence of
pat repeatedly, scanning left to right without overlap. An empty pattern
leaves the string unchanged, exactly as s.replace("", "") does. -/
def replaceAll (pat : List Char) : List Char → List Char
  | [] => []
  | c :: cs =>
    if h : pat.isEmpty = false ∧ pat.isPrefixOf (c :: cs) = true then
      replaceAll pat ((c :: cs).drop pat.length)
    else c :: replaceAll pat cs
termination_by l => l.length
decreasing_by
  · simp only [List.length_drop, List.length_cons]
    have hne : pat ≠ [] := by
      intro hnil
      rw [hnil] at h
      exact absurd h.1 (by simp)
    have : 0 < pat.length := List.length_pos.mpr hne
    omega
  · simp

/-- HarmonyEvent.clean_label from src/harmonykit/types.py: the label with the
substrings "}{", "{" and "}" replaced away in that order, stripped; an empty
result is returned as Python None. -/
def clean_label (label : String) : Option String :=
  let txt := pyStrip ⟨replaceAll ['\x7d'] (replaceAll ['\x7b'] (replaceAll ['\x7d', '\x7b'] label.data))⟩
  if txt = "" then none else some txt

/-- HarmonyEvent from src/harmonykit/types.py after __post_init__ has run:
mc is an int, mc_onset an exact Fraction, label a stripped string, the
remaining fields optional pass-through strings defaulting to None. -/
structure HarmonyEvent where
  piece_id : String
  mc : Int
  mc_onset : Rat
  label : String
  regex_match : Option String := none
  globalkey : Option String := none
  localkey : Option String := none
  numeral : Option String := none
  figbass : Option String := none
  chord_type : Option String := none
deriving DecidableEq, Repr

/-- Construction of a HarmonyEvent from one table row, as BaseAdapter.events
performs it: a missing mc column falls back to the int 0 and a missing
mc_onset column to the string "0" (hence the rational 0); present cells are
coerced by __post_init__, which raises through this Except on failure. The
chord_type keyword is never passed by the adapter, so the field keeps its
None default. -/
def mkHarmonyEvent (piece_id : String)
    (mc mc_onset label regex_match globalkey localkey numeral figbass : Option String) :
    Except PyExc HarmonyEvent := do
  let mcv : Int ←
    match mc with
    | none => pure 0
    | some s =>
      match pyInt s with
      | none => throw .valueError
      | some n => pure n
  let onsetv : Rat ←
    match mc_onset with
    | none => pure 0
    | some s => parseFraction s
  pure { piece_id := piece_id, mc := mcv, mc_onset := onsetv,
         label := pyStrip (label.getD ""),
         regex_match := regex_match, globalkey := globalkey,
         localkey := localkey, numeral := numeral, figbass := figbass }

/-- Model of a pandas DataFrame as loaded by BaseAdapter._load_dataframe:
a header of column names and rows of raw text cells, every value kept as a
string (dtype=str, keep_default_na=False). -/
structure Table where
  cols : List String
  rows : List (List String)
deriving DecidableEq, Repr

/-- Model of row.get(c): the cell under column c, or none when the table has
no such column. -/
def rowGet (cols row : List String) (c : String) : Option String :=
  match cols.findIdx? (fun x => x == c) with
  | none => none
  | some i => row.get? i

/-- Lexicographic comparison of character lists by code point, the order
Python uses for str comparison and hence the order pandas sort_values applies
to the string-typed mc and mc_onset columns. -/
def charListLE : List Char → List Char → Bool
  | [], _ => true
  | _ :: _, [] => false
  | a :: as, b :: bs => if a < b then true else if b < a then false else charListLE as bs

/-- Lexicographic comparison of string tuples, the order pandas sort_values
applies across the sort-column list. -/
def strListLE : List String → List String → Bool
  | [], _ => true
  | _ :: _, [] => false
  | a :: as, b :: bs => if a.data = b.data then strListLE as bs else charListLE a.data b.data

/-- Sort-column selection from BaseAdapter.events: the columns among mc and
mc_onset, in that order, that the table actually has. -/
def sortColsOf (cols : List String) : List String :=
  ["mc", "mc_onset"].filter (fun c => cols.contains c)

/-- Sort key of one row: its raw text cells under the selected sort columns. -/
def sortKey (cols row : List String) : List String :=
  (sortColsOf cols).map (fun c => (rowGet cols row c).getD "")

/-- Row comparison used by the sort step: string-tuple order on sort keys. -/
def rowLE (cols : List String) (r s : List String) : Bool :=
  strListLE (sortKey cols r) (sortKey cols s)

/-- Sort step of BaseAdapter.events: when at least one of mc and mc_onset is
present, stable-sort the rows by those string columns with mergesort;
otherwise leave the table untouched. -/
def sortTable (t : Table) : Table :=
  if (sortColsOf t.cols).isEmpty then t
  else { t with rows := t.rows.mergeSort (rowLE t.cols) }

/-- Filter step of BaseAdapter.events: with dcml_only set and a regex_match
column present, keep exactly the rows whose regex_match cell is the literal
string dcml; otherwise keep every row. Runs after the sort step. -/
def retainedRows (t : Table) (dcml_only : Bool) : List (List String) :=
  let ts := sortTable t
  if dcml_only && ts.cols.contains "regex_match" then
    ts.rows.filter (fun r => rowGet ts.cols r "regex_match" == some "dcml")
  else ts.rows

/-- Conversion of the retained rows into HarmonyEvents, in order, stopping at
the first construction failure, as consuming the Python generator does. -/
def eventsOfRows (piece_id : String) (cols : List String) :
    List (List String) → Except PyExc (List HarmonyEvent)
  | [] => .ok []
  | r :: rs => do
    let e ← mkHarmonyEvent piece_id (rowGet cols r "mc") (rowGet cols r "mc_onset")
      (rowGet cols r "label") (rowGet cols r "regex_match") (rowGet cols r "globalkey")
      (rowGet cols r "localkey") (rowGet cols r "numeral") (rowGet cols r "figbass")
    let es ← eventsOfRows piece_id cols rs
    pure (e :: es)

/-- BaseAdapter.events applied to an already-loaded table: sort, filter,
then yield one HarmonyEvent per retained row. -/
def events (piece_id : String) (t : Table) (dcml_only : Bool) :
    Except PyExc (List HarmonyEvent) :=
  eventsOfRows piece_id t.cols (retainedRows t dcml_only)

/-- Model of the corpus filesystem seen by find_annotations_path: whether the
harmonies subdirectory of the dataset root exists, and the names of the files
inside it. Paths are identified with these names; symbolic links are not
modelled, so resolving a path is the identity. -/
structure CorpusFS where
  harmoniesExists : Bool
  files : List String
deriving DecidableEq, Repr

/-- Decide whether sub occurs inside s, the Python substring test. -/
def strContainsSub (sub s : String) : Bool := containsSub sub.data s.data

/-- BaseAdapter._validate_piece_id: a piece_id is accepted exactly when it
contains neither a slash nor the two-character run "..". -/
def validate_piece_id_ok (piece_id : String) : Bool :=
  !(strContainsSub "/" piece_id || strContainsSub ".." piece_id)

/-- Fixed filename templates tried by find_annotations_path, in order. -/
def templates (piece_id : String) : List String :=
  [piece_id ++ ".harmonies.tsv", piece_id ++ ".annotations.tsv",
   piece_id ++ "_annotations.tsv", piece_id ++ ".tsv"]

/-- Template candidates that exist on disk. -/
def templateMatches (fs : CorpusFS) (piece_id : String) : List String :=
  (templates piece_id).filter (fun n => fs.files.contains n)

/-- Fallback glob of find_annotations_path: files in the harmonies directory
matching the pattern piece_id followed by a star and .tsv, which, for
identifiers free of glob metacharacters, are exactly the names extending
piece_id by anything and ending in .tsv. -/
def globMatches (fs : CorpusFS) (piece_id : String) : List String :=
  fs.files.filter (fun n =>
    piece_id.data.isPrefixOf n.data && List.isSuffixOf ".tsv".data n.data
      && decide (piece_id.data.length + 4 ≤ n.data.length))

/-- BaseAdapter.find_annotations_path: validate the identifier, require the
harmonies directory, try the fixed templates, fall back to the glob, then
demand exactly one match, raising PieceNotFoundError on zero matches and
MultipleMatchesError carrying all matched names on several. -/
def find_annotations_path (fs : CorpusFS) (piece_id : String) : Except PyExc String :=
  if !validate_piece_id_ok piece_id then .error .invalidPieceIdError
  else if !fs.harmoniesExists then .error .pieceNotFoundError
  else
    let m0 := templateMatches fs piece_id
    let m := if m0.isEmpty then globMatches fs piece_id else m0
    match m with
    | [] => .error .pieceNotFoundError
    | [p] => .ok p
    | ps => .error (.multipleMatchesError ps)

/-- Closed set of boundary markers enforced by Row._check_boundary in
src/schema/roadmap.py. -/
def allowedBoundary : List String := ["NONE", "START", "END", "LINK"]

/-- Lowercase an ASCII letter, for the case-insensitive float keywords. -/
def asciiLower (c : Char) : Char :=
  if 'A' ≤ c && c ≤ 'Z' then Char.ofNat (c.toNat + 32) else c

/-- Model of Python float(str) acceptance, used for the optional confidence
fields of the Row schema: optional surrounding whitespace, an optional sign,
then a decimal form with an optional exponent, or one of the keywords inf,
infinity and nan in any letter case. Only acceptance matters to validation,
so no value is produced. Underscore digit separators are not modelled. -/
def pyFloatOk (s : String) : Bool :=
  let l0 := stripWs s.data
  let l1 :=
    match l0 with
    | '+' :: r => r
    | '-' :: r => r
    | _ => l0
  let low := l1.map asciiLower
  if low = "inf".data || low = "infinity".data || low = "nan".data then true
  else
    let pn := takeDigits l1
    let pdec : List Char × List Char :=
      match pn.2 with
      | '.' :: r => takeDigits r
      | _ => ([], pn.2)
    if pn.1.isEmpty && pdec.1.isEmpty then false
    else
      match pdec.2 with
      | [] => true
      | 'e' :: r3 =>
        let r4 :=
          match r3 with
          | '+' :: r => r
          | '-' :: r => r
          | _ => r3
        let pe := takeDigits r4
        !pe.1.isEmpty && pe.2.isEmpty
      | 'E' :: r3 =>
        let r4 :=
          match r3 with
          | '+' :: r => r
          | '-' :: r => r
          | _ => r3
        let pe := takeDigits r4
        !pe.1.isEmpty && pe.2.isEmpty
      | _ => false

/-- Validation failures of one Row construction, in field-declaration order:
each entry is the failing field name with the offending cell, or with none
when a required field was missing from the row. This is the information a
pydantic ValidationError reports; note the absence of any row position. -/
def rowErrors (cols row : List String) : List (String × Option String) :=
  (match rowGet cols row "piece_id" with
   | none => [("piece_id", (none : Option String))]
   | some _ => []) ++
  (match rowGet cols row "mc" with
   | none => [("mc", (none : Option String))]
   | some s => if (pyInt s).isSome then [] else [("mc", some s)]) ++
  (match rowGet cols row "onset" with
   | none => [("onset", (none : Option String))]
   | some s => if (parseFraction s).isOk then [] else [("onset", some s)]) ++
  (match rowGet cols row "measure" with
   | none => [("measure", (none : Option String))]
   | some s => if (pyInt s).isSome then [] else [("measure", some s)]) ++
  (match rowGet cols row "beat" with
   | none => [("beat", (none : Option String))]
   | some s => if (parseFraction s).isOk then [] else [("beat", some s)]) ++
  (match rowGet cols row "boundary" with
   | none => []
   | some s => if allowedBoundary.contains s then [] else [("boundary", some s)]) ++
  (match rowGet cols row "confidence_root" with
   | none => []
   | some s => if pyFloatOk s then [] else [("confidence_root", some s)]) ++
  (match rowGet cols row "confidence_inv" with
   | none => []
   | some s => if pyFloatOk s then [] else [("confidence_inv", some s)]) ++
  (match rowGet cols row "confidence_boundary" with
   | none => []
   | some s => if pyFloatOk s then [] else [("confidence_boundary", some s)])

/-- Row-by-row validation loop of validate_dataframe: construct a Row per
row, raising the first ValidationError encountered. The string-typed fields
piece_id, global_key, local_key, rn_root, rn_inv, rn_qual, source and version
cannot fail coercion from a string cell, so only presence is checked for the
required piece_id and nothing for the optional and defaulted ones. -/
def validateRows (cols : List String) :
    List (List String) → Except (List (String × Option String)) Unit
  | [] => .ok ()
  | r :: rs =>
    match rowErrors cols r with
    | [] => validateRows cols rs
    | es => .error es

/-- validate_dataframe from src/schema/roadmap.py: validate one Row per row
of df.head(10), the bounded prefix sample. -/
def validate_dataframe (t : Table) : Except (List (String × Option String)) Unit :=
  validateRows t.cols (t.rows.take 10)

/-! Helper lemmas. -/

theorem mkHarmonyEvent_ok_fields (pid : String)
    (mc onset label rm gk lk nm fb : Option String) (e : HarmonyEvent)
    (h : mkHarmonyEvent pid mc onset label rm gk lk nm fb = .ok e) :
    e.piece_id = pid ∧ e.regex_match = rm ∧ e.chord_type = none := by
  unfold mkHarmonyEvent at h
  cases mc with
  | none =>
    cases onset with
    | none =>
      simp only [pure, Except.pure, bind, Except.bind, Except.ok.injEq] at h
      subst h
      exact ⟨rfl, rfl, rfl⟩
    | some s =>
      cases hf : parseFraction s with
      | error ex => simp [pure, Except.pure, bind, Except.bind, hf] at h
      | ok q =>
        simp only [pure, Except.pure, bind, Except.bind, hf, Except.ok.injEq] at h
        subst h
        exact ⟨rfl, rfl, rfl⟩
  | some s =>
    cases hp : pyInt s with
    | none => simp [pure, Except.pure, bind, Except.bind, throw, throwThe,
        MonadExceptOf.throw, hp] at h
    | some n =>
      cases onset with
      | none =>
        simp only [pure, Except.pure, bind, Except.bind, hp, Except.ok.injEq] at h
        subst h
        exact ⟨rfl, rfl, rfl⟩
      | some s2 =>
        cases hf : parseFraction s2 with
        | error ex => simp [pure, Except.pure, bind, Except.bind, hp, hf] at h
        | ok q =>
          simp only [pure, Except.pure, bind, Except.bind, hp, hf, Except.ok.injEq] at h
          subst h
          exact ⟨rfl, rfl, rfl⟩

theorem eventsOfRows_ok_mem (pid : String) (cols : List String) :
    ∀ (rows : List (List String)) (evs : List HarmonyEvent),
      eventsOfRows pid cols rows = .ok evs →
      ∀ e ∈ evs, ∃ r ∈ rows,
        mkHarmonyEvent pid (rowGet cols r "mc") (rowGet cols r "mc_onset")
          (rowGet cols r "label") (rowGet cols r "regex_match") (rowGet cols r "globalkey")
          (rowGet cols r "localkey") (rowGet cols r "numeral") (rowGet cols r "figbass") = .ok e
  | [], evs, h => by
    simp only [eventsOfRows, Except.ok.injEq] at h
    subst h
    intro e he
    exact absurd he (List.not_mem_nil e)
  | r :: rs, evs, h => by
    rw [eventsOfRows] at h
    cases hm : mkHarmonyEvent pid (rowGet cols r "mc") (rowGet cols r "mc_onset")
        (rowGet cols r "label") (rowGet cols r "regex_match") (rowGet cols r "globalkey")
        (rowGet cols r "localkey") (rowGet cols r "numeral") (rowGet cols r "figbass") with
    | error ex => simp [bind, Except.bind, hm] at h
    | ok e0 =>
      cases hr : eventsOfRows pid cols rs with
      | error ex => simp [bind, Except.bind, hm, hr] at h
      | ok es =>
        simp only [bind, Except.bind, hm, hr, pure, Except.pure, Except.ok.injEq] at h
        subst h
        intro e he
        rcases List.mem_cons.mp he with rfl | he2
        · exact ⟨r, List.mem_cons_self r rs, hm⟩
        · rcases eventsOfRows_ok_mem pid cols rs es hr e he2 with ⟨r2, hr2, hmk⟩
          exact ⟨r2, List.mem_cons_of_mem r hr2, hmk⟩

theorem eventsOfRows_ok_length (pid : String) (cols : List String) :
    ∀ (rows : List (List String)) (evs : List HarmonyEvent),
      eventsOfRows pid cols rows = .ok evs → evs.length = rows.length
  | [], evs, h => by
    simp only [eventsOfRows, Except.ok.injEq] at h
    subst h
    rfl
  | r :: rs, evs, h => by
    rw [eventsOfRows] at h
    cases hm : mkHarmonyEvent pid (rowGet cols r "mc") (rowGet cols r "mc_onset")
        (rowGet cols r "label") (rowGet cols r "regex_match") (rowGet cols r "globalkey")
        (rowGet cols r "localkey") (rowGet cols r "numeral") (rowGet cols r "figbass") with
    | error ex => simp [bind, Except.bind, hm] at h
    | ok e0 =>
      cases hr : eventsOfRows pid cols rs with
      | error ex => simp [bind, Except.bind, hm, hr] at h
      | ok es =>
        simp only [bind, Except.bind, hm, hr, pure, Except.pure, Except.ok.injEq] at h
        subst h
        simp [eventsOfRows_ok_length pid cols rs es hr]

/-! Claim C4: identifiers containing a slash or ".." fail InvalidIdentifier
for every filesystem state. -/

/-- C4: for every piece identifier containing "/" or "..",
find_annotations_path fails with InvalidPieceIdError, uniformly in the
filesystem, hence before any filesystem access. -/
theorem C4_invalid_identifier (pid : String)
    (h : strContainsSub "/" pid = true ∨ strContainsSub ".." pid = true) :
    ∀ fs : CorpusFS, find_annotations_path fs pid = .error .invalidPieceIdError := by
  intro fs
  have hv : validate_piece_id_ok pid = false := by
    unfold validate_piece_id_ok
    rcases h with h | h <;> simp [h]
  unfold find_annotations_path
  simp [hv]

/-- C4 witness: the identifier "a/b" fails InvalidPieceIdError on a concrete
filesystem that does contain a matching file. -/
theorem C4_invalid_identifier_witness :
    find_annotations_path ⟨true, ["a.tsv"]⟩ "a/b" = .error .invalidPieceIdError :=
  C4_invalid_identifier "a/b" (Or.inl (by decide)) ⟨true, ["a.tsv"]⟩

theorem parseFraction_error_builtin (s : String) (e : PyExc)
    (h : parseFraction s = .error e) :
    e = .valueError ∨ e = .zeroDivisionError := by
  simp only [parseFraction] at h
  repeat' split at h
  all_goals simp_all

/-! Claim C2: rows with unparseable mc or mc_onset. The exception family in
src/harmonykit/utils/exceptions.py declares no MalformedRow kind, and
HarmonyEvent.__post_init__ raises the builtin ValueError (or, for a zero
denominator, ZeroDivisionError) rather than any HarmonyKitError. -/

/-- C2 counterexample: a row whose mc text "x" is not integer-parseable makes
HarmonyEvent construction fail with the builtin ValueError, which is not a
kind of the HarmonyKitError domain-error family, refuting the claim that the
failure is the typed domain error MalformedRow. -/
theorem C2_counterexample :
    mkHarmonyEvent "p" (some "x") (some "0") (some "") none none none none none
      = .error .valueError
    ∧ PyExc.valueError.isHarmonyKitError = false :=
  ⟨rfl, rfl⟩

/-- C2 amended: for every retained row whose mc text is not integer-parseable,
or whose mc_onset text is not parseable by the Fraction grammar, constructing
the HarmonyEvent fails with the builtin ValueError (or ZeroDivisionError for
a zero denominator), never with an error of the HarmonyKitError domain
family: no MalformedRow kind exists. -/
theorem C2_malformed_row_error (pid : String)
    (mc onset label rm gk lk nm fb : Option String) :
    (∀ s, mc = some s → pyInt s = none →
      mkHarmonyEvent pid mc onset label rm gk lk nm fb = .error .valueError)
    ∧ (∀ s t e, mc = some s → pyInt s ≠ none → onset = some t →
        parseFraction t = .error e →
        mkHarmonyEvent pid mc onset label rm gk lk nm fb = .error e)
    ∧ (∀ t e, mc = none → onset = some t → parseFraction t = .error e →
        mkHarmonyEvent pid mc onset label rm gk lk nm fb = .error e)
    ∧ (∀ e, mkHarmonyEvent pid mc onset label rm gk lk nm fb = .error e →
        e.isHarmonyKitError = false) := by
  refine ⟨?_, ?_, ?_, ?_⟩
  · rintro s rfl hnone
    simp [mkHarmonyEvent, hnone, bind, Except.bind, throw, throwThe, MonadExceptOf.throw]
  · rintro s t e rfl hsome rfl hf
    rcases Option.ne_none_iff_exists.mp hsome with ⟨n, hn⟩
    simp [mkHarmonyEvent, hn.symm, hf, bind, Except.bind, pure, Except.pure]
  · rintro t e rfl rfl hf
    simp [mkHarmonyEvent, hf, bind, Except.bind, pure, Except.pure]
  · intro e h
    unfold mkHarmonyEvent at h
    cases mc with
    | none =>
      cases onset with
      | none => simp [pure, Except.pure, bind, Except.bind] at h
      | some t =>
        cases hf : parseFraction t with
        | error ex =>
          simp only [pure, Except.pure, bind, Except.bind, hf, Except.error.injEq] at h
          subst h
          rcases parseFraction_error_builtin t ex hf with rfl | rfl <;> rfl
        | ok q => simp [pure, Except.pure, bind, Except.bind, hf] at h
    | some s =>
      cases hp : pyInt s with
      | none =>
        simp only [pure, Except.pure, bind, Except.bind, throw, throwThe,
          MonadExceptOf.throw, hp, Except.error.injEq] at h
        subst h
        rfl
      | some n =>
        cases onset with
        | none => simp [pure, Except.pure, bind, Except.bind, hp] at h
        | some t =>
          cases hf : parseFraction t with
          | error ex =>
            simp only [pure, Except.pure, bind, Except.bind, hp, hf,
              Except.error.injEq] at h
            subst h
            rcases parseFraction_error_builtin t ex hf with rfl | rfl <;> rfl
          | ok q => simp [pure, Except.pure, bind, Except.bind, hp, hf] at h

/-- C2 witness: the amended theorem applied to a concrete row with mc "x". -/
theorem C2_malformed_row_error_witness :
    mkHarmonyEvent "p" (some "x") (some "1/4") none none none none none none
      = .error .valueError :=
  (C2_malformed_row_error "p" (some "x") (some "1/4")
    none none none none none none).1 "x" rfl rfl

/-! Claim C7: the ordered brace-classification rule. -/

/-- C7: for every label, brace follows the ordered rule: BOUNDARY exactly
when "}{" occurs; else OPEN exactly when "{" occurs; else CLOSE exactly when
"}" occurs; else NONE; with the four concrete classifications of the claim. -/
theorem C7_brace_rule (s : String) :
    (brace s = Brace.BOUNDARY ↔ containsSub ['\x7d', '\x7b'] s.data = true)
    ∧ (containsSub ['\x7d', '\x7b'] s.data = false →
        (brace s = Brace.OPEN ↔ containsSub ['\x7b'] s.data = true))
    ∧ (containsSub ['\x7d', '\x7b'] s.data = false → containsSub ['\x7b'] s.data = false →
        (brace s = Brace.CLOSE ↔ containsSub ['\x7d'] s.data = true))
    ∧ (brace s = Brace.NONE ↔
        containsSub ['\x7d', '\x7b'] s.data = false ∧ containsSub ['\x7b'] s.data = false
          ∧ containsSub ['\x7d'] s.data = false)
    ∧ brace "\x7d\x7bV7" = Brace.BOUNDARY ∧ brace "\x7bV7" = Brace.OPEN
    ∧ brace "V7\x7d" = Brace.CLOSE ∧ brace "V7" = Brace.NONE := by
  refine ⟨?_, ?_, ?_, ?_, by decide, by decide, by decide, by decide⟩ <;>
    (by_cases h1 : containsSub ['\x7d', '\x7b'] s.data = true <;>
     by_cases h2 : containsSub ['\x7b'] s.data = true <;>
     by_cases h3 : containsSub ['\x7d'] s.data = true <;>
     simp [brace, h1, h2, h3])

/-- C7 witness: the rule applied to the label "}{V7". -/
theorem C7_brace_rule_witness : brace "\x7d\x7bV7" = Brace.BOUNDARY :=
  (C7_brace_rule "\x7d\x7bV7").1.mpr (by decide)

/-! Claim C10: chord_type is never populated by the pipeline. -/

/-- C10: every HarmonyEvent yielded by events has chord_type none, for every
table, dcml_only flag and piece identifier, because the adapter never passes
the chord_type keyword even when a chord_type column exists. -/
theorem C10_chord_type_absent (pid : String) (t : Table) (d : Bool)
    (evs : List HarmonyEvent) (h : events pid t d = .ok evs) :
    ∀ e ∈ evs, e.chord_type = none := by
  intro e he
  rcases eventsOfRows_ok_mem pid t.cols (retainedRows t d) evs h e he with ⟨r, _, hmk⟩
  exact (mkHarmonyEvent_ok_fields pid _ _ _ _ _ _ _ _ e hmk).2.2

/-- C10 witness: a table that does carry a chord_type column still yields an
event with chord_type none. -/
theorem C10_chord_type_absent_witness :
    events "p" ⟨["chord_type", "label"], [["X", "V7"]]⟩ false
      = .ok [{ piece_id := "p", mc := 0, mc_onset := 0, label := "V7" }]
    ∧ ∀ e ∈ [({ piece_id := "p", mc := 0, mc_onset := 0, label := "V7" } : HarmonyEvent)],
        e.chord_type = none :=
  ⟨rfl, C10_chord_type_absent "p" ⟨["chord_type", "label"], [["X", "V7"]]⟩ false _ rfl⟩

/-! Claim C9: the dcml_only filter. -/

theorem sortTable_cols (t : Table) : (sortTable t).cols = t.cols := by
  unfold sortTable
  split <;> rfl

/-- C9: without a regex_match column, events with dcml_only is identical to
events without it; with the column, a successful dcml_only run yields exactly
one event per row whose regex_match cell is the literal dcml, and every
yielded event carries regex_match dcml. -/
theorem C9_dcml_filter (pid : String) (t : Table) :
    (t.cols.contains "regex_match" = false → events pid t true = events pid t false)
    ∧ (t.cols.contains "regex_match" = true → ∀ evs, events pid t true = .ok evs →
        evs.length = ((sortTable t).rows.filter
          (fun r => rowGet t.cols r "regex_match" == some "dcml")).length
        ∧ ∀ e ∈ evs, e.regex_match = some "dcml") := by
  constructor
  · intro h
    have hm : ¬ ("regex_match" ∈ t.cols) := by simpa using h
    unfold events retainedRows
    simp [sortTable_cols, hm]
  · intro h evs hev
    unfold events retainedRows at hev
    simp only [sortTable_cols, h, Bool.and_true, if_pos] at hev
    constructor
    · exact eventsOfRows_ok_length pid t.cols _ evs hev
    · intro e he
      rcases eventsOfRows_ok_mem pid t.cols _ evs hev e he with ⟨r, hr, hmk⟩
      have heq : rowGet t.cols r "regex_match" = some "dcml" := by
        have h2 := (List.mem_filter.mp hr).2
        simpa using h2
      rcases mkHarmonyEvent_ok_fields pid _ _ _ _ _ _ _ _ e hmk with ⟨_, hrm, _⟩
      rw [hrm, heq]

/-- C9 witness: on a concrete table with a regex_match column, dcml_only
retains exactly the one dcml row. -/
theorem C9_dcml_filter_witness :
    ([({ piece_id := "p", mc := 0, mc_onset := 0, label := "V7", regex_match := some "dcml" } :
        HarmonyEvent)]).length
      = ((sortTable ⟨["regex_match", "label"], [["dcml", "V7"], ["other", "x"]]⟩).rows.filter
          (fun r => rowGet ["regex_match", "label"] r "regex_match" == some "dcml")).length
    ∧ ∀ e ∈ [({ piece_id := "p", mc := 0, mc_onset := 0, label := "V7", regex_match := some "dcml" } :
          HarmonyEvent)],
        e.regex_match = some "dcml" :=
  (C9_dcml_filter "p" ⟨["regex_match", "label"], [["dcml", "V7"], ["other", "x"]]⟩).2
    rfl _ rfl

/-! Claim C3: resolution outcomes of find_annotations_path for valid
identifiers, and the template-over-glob priority. -/

/-- C3: for every valid piece identifier, a missing harmonies directory or an
empty match set fails PieceNotFoundError; a unique match, whether from the
fixed templates or from the fallback glob, is returned as is; two or more
matches fail MultipleMatchesError carrying all matched names; and the glob
result is consulted only when no fixed-template candidate exists, so a
nonempty template set decides the outcome by itself. -/
theorem C3_locate_outcomes (fs : CorpusFS) (pid : String)
    (hv : validate_piece_id_ok pid = true) :
    (fs.harmoniesExists = false →
      find_annotations_path fs pid = .error .pieceNotFoundError)
    ∧ (fs.harmoniesExists = true → templateMatches fs pid = [] →
        globMatches fs pid = [] →
        find_annotations_path fs pid = .error .pieceNotFoundError)
    ∧ (∀ p, fs.harmoniesExists = true → templateMatches fs pid = [p] →
        find_annotations_path fs pid = .ok p)
    ∧ (∀ p, fs.harmoniesExists = true → templateMatches fs pid = [] →
        globMatches fs pid = [p] → find_annotations_path fs pid = .ok p)
    ∧ (fs.harmoniesExists = true → 2 ≤ (templateMatches fs pid).length →
        find_annotations_path fs pid
          = .error (.multipleMatchesError (templateMatches fs pid)))
    ∧ (fs.harmoniesExists = true → templateMatches fs pid = [] →
        2 ≤ (globMatches fs pid).length →
        find_annotations_path fs pid
          = .error (.multipleMatchesError (globMatches fs pid))) := by
  refine ⟨?_, ?_, ?_, ?_, ?_, ?_⟩
  · intro h
    unfold find_annotations_path
    simp [hv, h]
  · intro h ht hg
    unfold find_annotations_path
    simp [hv, h, ht, hg]
  · intro p h ht
    unfold find_annotations_path
    simp [hv, h, ht]
  · intro p h ht hg
    unfold find_annotations_path
    simp [hv, h, ht, hg]
  · intro h hlen
    obtain ⟨a, b, rest, hab⟩ : ∃ a b rest, templateMatches fs pid = a :: b :: rest := by
      match hm : templateMatches fs pid with
      | [] => rw [hm] at hlen; simp at hlen
      | [a] => rw [hm] at hlen; simp at hlen
      | a :: b :: rest => exact ⟨a, b, rest, rfl⟩
    unfold find_annotations_path
    rw [hab]
    simp [hv, h]
  · intro h ht hlen
    obtain ⟨a, b, rest, hab⟩ : ∃ a b rest, globMatches fs pid = a :: b :: rest := by
      match hm : globMatches fs pid with
      | [] => rw [hm] at hlen; simp at hlen
      | [a] => rw [hm] at hlen; simp at hlen
      | a :: b :: rest => exact ⟨a, b, rest, rfl⟩
    unfold find_annotations_path
    rw [ht, hab]
    simp [hv, h]

/-- C3 witness: a corpus whose harmonies directory holds exactly x.tsv
resolves the identifier x to that file through the fixed templates. -/
theorem C3_locate_outcomes_witness :
    find_annotations_path ⟨true, ["x.tsv"]⟩ "x" = .ok "x.tsv" :=
  (C3_locate_outcomes ⟨true, ["x.tsv"]⟩ "x" (by decide)).2.2.1 "x.tsv" rfl (by decide)

/-! Claim C5: exactness of onset coercion. -/

theorem dropWhile_eq_self_of_none (p : Char → Bool) (l : List Char)
    (h : ∀ c ∈ l, p c = false) : l.dropWhile p = l := by
  cases l with
  | nil => rfl
  | cons c cs => simp [List.dropWhile_cons, h c (List.mem_cons_self c cs)]

theorem stripWs_eq_self (l : List Char) (h : ∀ c ∈ l, isPySpace c = false) :
    stripWs l = l := by
  unfold stripWs
  rw [dropWhile_eq_self_of_none _ _ h, dropWhile_eq_self_of_none, List.reverse_reverse]
  intro c hc
  exact h c (List.mem_reverse.mp hc)

theorem digit_not_space (c : Char) (h : isDigitChar c = true) : isPySpace c = false := by
  cases hsp : isPySpace c with
  | false => rfl
  | true =>
    exfalso
    simp only [isPySpace, Bool.or_eq_true, decide_eq_true_eq] at hsp
    rcases hsp with ((((rfl | rfl) | rfl) | rfl) | rfl) | rfl <;> exact absurd h (by decide)

theorem digit_ne_plus (c : Char) (h : isDigitChar c = true) : c ≠ '+' := by
  rintro rfl
  exact absurd h (by decide)

theorem digit_ne_minus (c : Char) (h : isDigitChar c = true) : c ≠ '-' := by
  rintro rfl
  exact absurd h (by decide)

theorem takeSign_cons_of (c : Char) (r : List Char) (h1 : c ≠ '+') (h2 : c ≠ '-') :
    takeSign (c :: r) = (1, c :: r) := by
  unfold takeSign
  split <;> simp_all

theorem takeDigits_append (n r : List Char) (hn : ∀ c ∈ n, isDigitChar c = true)
    (hr : ∀ c rs, r = c :: rs → isDigitChar c = false) :
    takeDigits (n ++ r) = (n, r) := by
  induction n with
  | nil =>
    cases r with
    | nil => rfl
    | cons c rs => simp [takeDigits, hr c rs rfl]
  | cons d ds ih =>
    have hd : isDigitChar d = true := hn d (List.mem_cons_self d ds)
    have ih2 := ih (fun c hc => hn c (List.mem_cons_of_mem d hc))
    simp [takeDigits, hd, ih2]

theorem parseFraction_fracStr (n d : List Char)
    (hn : n ≠ []) (hd : d ≠ [])
    (hdn : ∀ c ∈ n, isDigitChar c = true) (hdd : ∀ c ∈ d, isDigitChar c = true)
    (hz : digitsToNat d ≠ 0) :
    parseFraction ⟨n ++ '/' :: d⟩
      = .ok (Rat.divInt (digitsToNat n) (digitsToNat d)) := by
  obtain ⟨c, n1, rfl⟩ : ∃ c n1, n = c :: n1 := by
    cases n with
    | nil => exact absurd rfl hn
    | cons c n1 => exact ⟨c, n1, rfl⟩
  have hc : isDigitChar c = true := hdn c (List.mem_cons_self c n1)
  have hstrip : stripWs ((c :: n1) ++ '/' :: d) = (c :: n1) ++ '/' :: d := by
    apply stripWs_eq_self
    intro x hx
    rcases List.mem_append.mp hx with hx | hx
    · exact digit_not_space x (hdn x hx)
    · rcases List.mem_cons.mp hx with rfl | hx
      · decide
      · exact digit_not_space x (hdd x hx)
  have hsign : takeSign ((c :: n1) ++ '/' :: d) = (1, (c :: n1) ++ '/' :: d) :=
    takeSign_cons_of c _ (digit_ne_plus c hc) (digit_ne_minus c hc)
  have htn : takeDigits ((c :: n1) ++ '/' :: d) = (c :: n1, '/' :: d) :=
    takeDigits_append (c :: n1) ('/' :: d) hdn
      (fun x rs hx => by
        rw [List.cons.injEq] at hx
        rw [← hx.1]
        decide)
  have htd : takeDigits d = (d, []) := by
    have := takeDigits_append d [] hdd (fun x rs hx => by simp at hx)
    simpa using this
  have hde : d.isEmpty = false := by
    cases d with
    | nil => exact absurd rfl hd
    | cons x xs => rfl
  simp only [parseFraction, hstrip, hsign, htn, htd, hde]
  simp [hc, hz]

/-- C5: onset coercion is exact rational arithmetic: "1/4" and "0.25" both
coerce to exactly one quarter and "0" to exactly zero, and any two
numerator-slash-denominator texts denoting the same rational coerce to the
same value under exact equality. -/
theorem C5_exact_onset_coercion :
    (mkHarmonyEvent "p" none (some "1/4") none none none none none none).toOption.map
        (fun e => e.mc_onset) = some (Rat.divInt 1 4)
    ∧ (mkHarmonyEvent "p" none (some "0.25") none none none none none none).toOption.map
        (fun e => e.mc_onset) = some (Rat.divInt 1 4)
    ∧ (mkHarmonyEvent "p" none (some "0") none none none none none none).toOption.map
        (fun e => e.mc_onset) = some 0
    ∧ (∀ n1 d1 n2 d2 : List Char, n1 ≠ [] → d1 ≠ [] → n2 ≠ [] → d2 ≠ [] →
        (∀ c ∈ n1, isDigitChar c = true) → (∀ c ∈ d1, isDigitChar c = true) →
        (∀ c ∈ n2, isDigitChar c = true) → (∀ c ∈ d2, isDigitChar c = true) →
        digitsToNat d1 ≠ 0 → digitsToNat d2 ≠ 0 →
        (digitsToNat n1 : Int) * (digitsToNat d2 : Int)
          = (digitsToNat n2 : Int) * (digitsToNat d1 : Int) →
        ∃ q : Rat, parseFraction ⟨n1 ++ '/' :: d1⟩ = .ok q
          ∧ parseFraction ⟨n2 ++ '/' :: d2⟩ = .ok q) := by
  refine ⟨rfl, rfl, rfl, ?_⟩
  intro n1 d1 n2 d2 hn1 hd1 hn2 hd2 hdn1 hdd1 hdn2 hdd2 hz1 hz2 hcross
  refine ⟨Rat.divInt (digitsToNat n1) (digitsToNat d1),
    parseFraction_fracStr n1 d1 hn1 hd1 hdn1 hdd1 hz1, ?_⟩
  rw [parseFraction_fracStr n2 d2 hn2 hd2 hdn2 hdd2 hz2]
  have h1 : (digitsToNat d1 : Int) ≠ 0 := Int.natCast_ne_zero.mpr hz1
  have h2 : (digitsToNat d2 : Int) ≠ 0 := Int.natCast_ne_zero.mpr hz2
  rw [(Rat.divInt_eq_divInt h2 h1).mpr hcross.symm]

/-- C5 witness: the texts "2/4" and "1/2" denote the same rational and
coerce to the same exact value. -/
theorem C5_exact_onset_coercion_witness :
    ∃ q : Rat, parseFraction ⟨['2'] ++ '/' :: ['4']⟩ = .ok q
      ∧ parseFraction ⟨['1'] ++ '/' :: ['2']⟩ = .ok q :=
  C5_exact_onset_coercion.2.2.2 ['2'] ['4'] ['1'] ['2']
    (by decide) (by decide) (by decide) (by decide)
    (by decide) (by decide) (by decide) (by decide)
    (by decide) (by decide) (by decide)

/-! Claim C8: clean_label removes every brace character and strips,
with an empty result becoming absence. -/

/-- Characters surviving the brace removal described by the claim. -/
def notBraceChar (x : Char) : Bool := !(x == '\x7b' || x == '\x7d')

theorem replaceAll_single (c : Char) (l : List Char) :
    replaceAll [c] l = l.filter (fun x => !(x == c)) := by
  induction l with
  | nil => simp [replaceAll]
  | cons x xs ih =>
    by_cases hx : c = x
    · subst hx
      rw [replaceAll, dif_pos]
      · simp [ih]
      · simp [List.isPrefixOf]
    · rw [replaceAll, dif_neg]
      · have hxc : (x == c) = false := by
          simp only [beq_eq_false_iff_ne, ne_eq]
          exact fun h => hx h.symm
        simp [List.filter_cons, hxc, ih]
      · rintro ⟨-, hp⟩
        simp only [List.isPrefixOf, Bool.and_eq_true, beq_iff_eq] at hp
        exact hx hp.1

theorem filter_replaceAll_pair :
    ∀ (n : Nat) (l : List Char), l.length ≤ n →
      (replaceAll ['\x7d', '\x7b'] l).filter notBraceChar = l.filter notBraceChar := by
  intro n
  induction n with
  | zero =>
    intro l hl
    have : l = [] := List.eq_nil_of_length_eq_zero (Nat.le_zero.mp hl)
    subst this
    simp [replaceAll]
  | succ n ih =>
    intro l hl
    cases l with
    | nil => simp [replaceAll]
    | cons x xs =>
      by_cases hpre : List.isPrefixOf ['\x7d', '\x7b'] (x :: xs) = true
      · obtain ⟨rfl, rest, rfl⟩ : x = '\x7d' ∧ ∃ rest, xs = '\x7b' :: rest := by
          cases xs with
          | nil => simp [List.isPrefixOf] at hpre
          | cons y ys =>
            simp only [List.isPrefixOf, Bool.and_eq_true, beq_iff_eq] at hpre
            exact ⟨hpre.1.symm, ys, by rw [← hpre.2.1]⟩
        rw [replaceAll, dif_pos ⟨rfl, hpre⟩]
        have hlen : rest.length ≤ n := by
          simp only [List.length_cons] at hl
          omega
        rw [show (('\x7d' :: '\x7b' :: rest).drop (['\x7d', '\x7b'] : List Char).length) = rest from rfl]
        rw [ih rest hlen]
        simp [notBraceChar]
      · rw [replaceAll, dif_neg (fun hand => hpre hand.2)]
        have hlen : xs.length ≤ n := by
          simp only [List.length_cons] at hl
          omega
        simp [List.filter_cons, ih xs hlen]

/-- C8: clean_label equals the label with every brace character removed and
then stripped of surrounding whitespace, with an empty result reported as
absence; and the three concrete cases of the claim. -/
theorem C8_clean_label_rule (s : String) :
    (clean_label s =
      (let t := pyStrip ⟨s.data.filter notBraceChar⟩
       if t = "" then none else some t))
    ∧ clean_label "\x7d\x7b" = none ∧ clean_label "\x7bV7" = some "V7"
    ∧ clean_label "V7" = some "V7" := by
  refine ⟨?_, by simp [clean_label, replaceAll, pyStrip, stripWs, isPySpace],
    by simp [clean_label, replaceAll, pyStrip, stripWs, isPySpace],
    by simp [clean_label, replaceAll, pyStrip, stripWs, isPySpace]⟩
  unfold clean_label
  rw [replaceAll_single '\x7b', replaceAll_single '\x7d', List.filter_filter]
  have hfe : ∀ l : List Char,
      l.filter (fun a => (!(a == '\x7d')) && (!(a == '\x7b'))) = l.filter notBraceChar := by
    intro l
    apply List.filter_congr
    intro a _
    cases ha : (a == '\x7b') <;> cases hb : (a == '\x7d') <;> simp [notBraceChar, ha, hb]
  rw [hfe, filter_replaceAll_pair (s.data.length) s.data le_rfl]

/-! Claim C6: sampled schema validation. -/

theorem validateRows_ok_iff (cols : List String) :
    ∀ rows : List (List String),
      validateRows cols rows = .ok () ↔ ∀ r ∈ rows, rowErrors cols r = []
  | [] => by simp [validateRows]
  | r :: rs => by
    rw [validateRows]
    cases he : rowErrors cols r with
    | nil => simp [he, validateRows_ok_iff cols rs]
    | cons e es => simp [he]

/-- Sample-row positions whose Row construction fails, stated from the
claim's words to express which sampled row is at fault; the validator's
raised error carries no such position. -/
def invalidSampleRows (t : Table) : List Nat :=
  ((t.rows.take 10).enum.filter (fun p => !(rowErrors t.cols p.2).isEmpty)).map
    (fun p => p.1)

/-- C6 amended: validate_dataframe inspects only the first ten rows; a table
whose sampled rows all conform passes; any sampled row with a failing field,
in particular a boundary value outside the closed set, makes validation fail
with a ValidationError naming the failing field and its value; the failing
row position is not part of the error. -/
theorem C6_validate_sample (t : Table) :
    (validate_dataframe t = validate_dataframe ⟨t.cols, t.rows.take 10⟩)
    ∧ ((∀ r ∈ t.rows.take 10, rowErrors t.cols r = []) → validate_dataframe t = .ok ())
    ∧ (∀ r ∈ t.rows.take 10, rowErrors t.cols r ≠ [] →
        ¬ (validate_dataframe t = .ok ()))
    ∧ (∀ r s, rowGet t.cols r "boundary" = some s →
        allowedBoundary.contains s = false →
        ("boundary", some s) ∈ rowErrors t.cols r) := by
  refine ⟨?_, ?_, ?_, ?_⟩
  · unfold validate_dataframe
    simp [List.take_take]
  · intro h
    exact (validateRows_ok_iff t.cols (t.rows.take 10)).mpr h
  · intro r hr hne hok
    exact hne ((validateRows_ok_iff t.cols (t.rows.take 10)).mp hok r hr)
  · intro r s hg hb
    unfold rowErrors
    rw [hg]
    simp [hb]
    refine Or.inr (Or.inr (Or.inr (Or.inr (Or.inr (Or.inl ?_)))))
    simpa using hb

/-- C6 witness: a conforming one-row table passes validation. -/
theorem C6_validate_sample_witness :
    validate_dataframe ⟨["piece_id", "mc", "onset", "measure", "beat", "boundary"],
      [["p", "1", "1/4", "1", "0", "START"]]⟩ = .ok () :=
  (C6_validate_sample ⟨["piece_id", "mc", "onset", "measure", "beat", "boundary"],
    [["p", "1", "1/4", "1", "0", "START"]]⟩).2.1 (by decide)

/-- C6 counterexample: two tables whose only bad boundary row sits at sample
position 0 and at sample position 1 respectively produce the very same
ValidationError, so the raised failure cannot identify which row violated
the contract, refuting the row-identification part of the claim. -/
theorem C6_counterexample :
    validate_dataframe ⟨["piece_id", "mc", "onset", "measure", "beat", "boundary"],
        [["p", "1", "0", "1", "0", "BAD"], ["p", "1", "0", "1", "0", "START"]]⟩
      = validate_dataframe ⟨["piece_id", "mc", "onset", "measure", "beat", "boundary"],
        [["p", "1", "0", "1", "0", "START"], ["p", "1", "0", "1", "0", "BAD"]]⟩
    ∧ invalidSampleRows ⟨["piece_id", "mc", "onset", "measure", "beat", "boundary"],
        [["p", "1", "0", "1", "0", "BAD"], ["p", "1", "0", "1", "0", "START"]]⟩ = [0]
    ∧ invalidSampleRows ⟨["piece_id", "mc", "onset", "measure", "beat", "boundary"],
        [["p", "1", "0", "1", "0", "START"], ["p", "1", "0", "1", "0", "BAD"]]⟩ = [1] :=
  ⟨rfl, by decide, by decide⟩

/-! Claim C1: the sort step. The table is loaded with every cell a string,
so sort_values orders the mc and mc_onset columns as strings, not as numbers;
the sort is stable, but the keys are string tuples. -/

theorem charListLE_total : ∀ a b : List Char, (charListLE a b || charListLE b a) = true
  | [], _ => by simp [charListLE]
  | _ :: _, [] => by simp [charListLE]
  | a :: as, b :: bs => by
    by_cases h1 : a < b
    · simp [charListLE, h1]
    · by_cases h2 : b < a
      · simp [charListLE, h1, h2]
      · simp [charListLE, h1, h2, charListLE_total as bs]

theorem charListLE_trans :
    ∀ a b c : List Char, charListLE a b = true → charListLE b c = true →
      charListLE a c = true
  | [], _, _, _, _ => by simp [charListLE]
  | x :: xs, [], _, h1, _ => by simp [charListLE] at h1
  | x :: xs, y :: ys, [], _, h2 => by simp [charListLE] at h2
  | x :: xs, y :: ys, z :: zs, h1, h2 => by
    simp only [charListLE] at h1 h2 ⊢
    rcases lt_trichotomy x y with hxy | hxy | hxy
    · rcases lt_trichotomy y z with hyz | hyz | hyz
      · simp [lt_trans hxy hyz]
      · subst hyz
        simp [hxy]
      · rw [if_neg (lt_asymm hyz), if_pos hyz] at h2
        cases h2
    · subst hxy
      rcases lt_trichotomy x z with hxz | hxz | hxz
      · simp [hxz]
      · subst hxz
        rw [if_neg (lt_irrefl x), if_neg (lt_irrefl x)] at h1 h2 ⊢
        exact charListLE_trans xs ys zs h1 h2
      · rw [if_neg (lt_asymm hxz), if_pos hxz] at h2
        cases h2
    · rw [if_neg (lt_asymm hxy), if_pos hxy] at h1
      cases h1

theorem charListLE_antisymm :
    ∀ a b : List Char, charListLE a b = true → charListLE b a = true → a = b
  | [], [], _, _ => rfl
  | [], _ :: _, _, h2 => by simp [charListLE] at h2
  | _ :: _, [], h1, _ => by simp [charListLE] at h1
  | x :: xs, y :: ys, h1, h2 => by
    simp only [charListLE] at h1 h2
    rcases lt_trichotomy x y with hxy | hxy | hxy
    · rw [if_neg (lt_asymm hxy), if_pos hxy] at h2
      cases h2
    · subst hxy
      rw [if_neg (lt_irrefl x), if_neg (lt_irrefl x)] at h1 h2
      rw [charListLE_antisymm xs ys h1 h2]
    · rw [if_neg (lt_asymm hxy), if_pos hxy] at h1
      cases h1

theorem strListLE_refl : ∀ a : List String, strListLE a a = true
  | [] => rfl
  | x :: xs => by simp [strListLE, strListLE_refl xs]

theorem strListLE_total : ∀ a b : List String, (strListLE a b || strListLE b a) = true
  | [], _ => by simp [strListLE]
  | _ :: _, [] => by simp [strListLE]
  | x :: xs, y :: ys => by
    by_cases hxy : x.data = y.data
    · simp [strListLE, hxy, strListLE_total xs ys]
    · have hyx : ¬ (y.data = x.data) := fun h => hxy h.symm
      simp [strListLE, hxy, hyx, charListLE_total x.data y.data]

theorem strListLE_trans :
    ∀ a b c : List String, strListLE a b = true → strListLE b c = true →
      strListLE a c = true
  | [], _, _, _, _ => by simp [strListLE]
  | x :: xs, [], _, h1, _ => by simp [strListLE] at h1
  | x :: xs, y :: ys, [], _, h2 => by simp [strListLE] at h2
  | x :: xs, y :: ys, z :: zs, h1, h2 => by
    simp only [strListLE] at h1 h2 ⊢
    by_cases hxy : x.data = y.data
    · by_cases hyz : y.data = z.data
      · rw [if_pos hxy] at h1
        rw [if_pos hyz] at h2
        rw [if_pos (hxy.trans hyz)]
        exact strListLE_trans xs ys zs h1 h2
      · rw [if_pos hxy] at h1
        rw [if_neg hyz] at h2
        have hxz : ¬ (x.data = z.data) := by
          rw [hxy]
          exact hyz
        rw [if_neg hxz, hxy]
        exact h2
    · by_cases hyz : y.data = z.data
      · rw [if_neg hxy] at h1
        have hxz : ¬ (x.data = z.data) := by
          rw [← hyz]
          exact hxy
        rw [if_neg hxz, ← hyz]
        exact h1
      · rw [if_neg hxy] at h1
        rw [if_neg hyz] at h2
        by_cases hxz : x.data = z.data
        · exfalso
          rw [hxz] at h1
          exact hyz (charListLE_antisymm y.data z.data h2 h1)
        · rw [if_neg hxz]
          exact charListLE_trans x.data y.data z.data h1 h2

theorem rowLE_trans (cols : List String) (a b c : List String) :
    rowLE cols a b = true → rowLE cols b c = true → rowLE cols a c = true :=
  strListLE_trans _ _ _

theorem rowLE_total (cols : List String) (a b : List String) :
    (rowLE cols a b || rowLE cols b a) = true :=
  strListLE_total _ _

theorem pairwise_rowLE_of_eq_key (cols k : List String) :
    ∀ l : List (List String), (∀ r ∈ l, sortKey cols r = k) →
      l.Pairwise (fun a b => rowLE cols a b = true)
  | [], _ => List.Pairwise.nil
  | r :: rs, h => by
    refine List.Pairwise.cons ?_
      (pairwise_rowLE_of_eq_key cols k rs
        (fun x hx => h x (List.mem_cons_of_mem r hx)))
    intro b hb
    have hr := h r (List.mem_cons_self r rs)
    have hbk := h b (List.mem_cons_of_mem r hb)
    unfold rowLE
    rw [hr, hbk]
    exact strListLE_refl k

/-- C1 amended: for every table carrying both an mc and an mc_onset column,
the events pipeline emits the rows stable-sorted ascending by the pair of
raw mc and mc_onset strings under lexicographic string comparison (the
cells are loaded as text and compared as text, not numerically): the sorted
rows are pairwise ordered by the string-tuple key, rows with any one exact
key keep their original relative order, and with dcml_only off the events
are generated from exactly this sorted row list. -/
theorem C1_sorted_by_string_keys (t : Table)
    (h1 : t.cols.contains "mc" = true) (h2 : t.cols.contains "mc_onset" = true) :
    List.Pairwise (fun r s => rowLE t.cols r s = true) (sortTable t).rows
    ∧ (∀ k : List String,
        (sortTable t).rows.filter (fun r => sortKey t.cols r == k)
          = t.rows.filter (fun r => sortKey t.cols r == k))
    ∧ retainedRows t false = (sortTable t).rows := by
  have hne : (sortColsOf t.cols).isEmpty = false := by
    have hm1 : "mc" ∈ t.cols := by simpa using h1
    have hm2 : "mc_onset" ∈ t.cols := by simpa using h2
    unfold sortColsOf
    simp [hm1, hm2]
  have hsort : sortTable t = { t with rows := t.rows.mergeSort (rowLE t.cols) } := by
    unfold sortTable
    rw [if_neg]
    simp [hne]
  refine ⟨?_, ?_, ?_⟩
  · rw [hsort]
    exact List.sorted_mergeSort (rowLE_trans t.cols) (rowLE_total t.cols) t.rows
  · intro k
    rw [hsort]
    have hpair : (t.rows.filter (fun r => sortKey t.cols r == k)).Pairwise
        (fun a b => rowLE t.cols a b = true) := by
      apply pairwise_rowLE_of_eq_key t.cols k
      intro r hr
      have := (List.mem_filter.mp hr).2
      simpa using this
    have hsub : List.Sublist (t.rows.filter (fun r => sortKey t.cols r == k))
        (t.rows.mergeSort (rowLE t.cols)) :=
      List.sublist_mergeSort (rowLE_trans t.cols) (rowLE_total t.cols) hpair
        (List.filter_sublist t.rows)
    have hsub2 : List.Sublist (t.rows.filter (fun r => sortKey t.cols r == k))
        ((t.rows.mergeSort (rowLE t.cols)).filter (fun r => sortKey t.cols r == k)) := by
      have hself : (t.rows.filter (fun r => sortKey t.cols r == k)).filter
          (fun r => sortKey t.cols r == k) = t.rows.filter (fun r => sortKey t.cols r == k) :=
        List.filter_eq_self.mpr (fun a ha => (List.mem_filter.mp ha).2)
      have := hsub.filter (fun r => sortKey t.cols r == k)
      rwa [hself] at this
    have hperm : List.Perm
        ((t.rows.mergeSort (rowLE t.cols)).filter (fun r => sortKey t.cols r == k))
        (t.rows.filter (fun r => sortKey t.cols r == k)) :=
      (List.mergeSort_perm t.rows (rowLE t.cols)).filter _
    exact (hsub2.eq_of_length hperm.length_eq.symm).symm
  · simp [retainedRows]

/-- C1 witness: the amended theorem at a concrete two-row table carrying
both sort columns. -/
theorem C1_sorted_by_string_keys_witness :
    List.Pairwise (fun r s => rowLE ["mc", "mc_onset"] r s = true)
      (sortTable ⟨["mc", "mc_onset"], [["1", "0"], ["2", "0"]]⟩).rows
    ∧ (∀ k : List String,
        (sortTable ⟨["mc", "mc_onset"], [["1", "0"], ["2", "0"]]⟩).rows.filter
            (fun r => sortKey ["mc", "mc_onset"] r == k)
          = [["1", "0"], ["2", "0"]].filter (fun r => sortKey ["mc", "mc_onset"] r == k))
    ∧ retainedRows ⟨["mc", "mc_onset"], [["1", "0"], ["2", "0"]]⟩ false
        = (sortTable ⟨["mc", "mc_onset"], [["1", "0"], ["2", "0"]]⟩).rows :=
  C1_sorted_by_string_keys ⟨["mc", "mc_onset"], [["1", "0"], ["2", "0"]]⟩
    (by decide) (by decide)

/-- C1 counterexample: a table whose mc cells are "10" and "9" is emitted
with mc 10 before mc 9, because the string "10" sorts before the string "9";
the events sequence is therefore not ascending in mc as an integer. -/
theorem C1_counterexample :
    (events "p" ⟨["mc", "mc_onset"], [["10", "0"], ["9", "0"]]⟩ false).toOption.map
        (fun l => l.map (fun e => e.mc)) = some [10, 9]
    ∧ (9 : Int) < 10 := by
  constructor
  · have hle : rowLE ["mc", "mc_onset"] ["10", "0"] ["9", "0"] = true := by decide
    have hs : List.mergeSort [["10", "0"], ["9", "0"]] (rowLE ["mc", "mc_onset"])
        = [["10", "0"], ["9", "0"]] := by
      simp [List.mergeSort, List.splitInTwo, List.splitAt, List.splitAt.go,
        List.merge, hle]
    simp only [events, retainedRows, sortTable, sortColsOf]
    norm_num [hs]
    exact ⟨_, rfl, rfl⟩
  · norm_num

end HarmonyKit
